import Mathlib

/-!
Verification development for the ingestion and versioned-upsert pipeline of
the `globe` repository.

The embedding models the backend ingestion core:
* `validateRecord`, `upsertIndicatorValues` from
  `src/backend/src/services/ingestion/upsert.ts`,
* `bulkUpsertHistoricalData` from
  `src/backend/src/services/ingestion/worldBankHistory.ts`,
* `logIngestion` and the per-job loop body of `runAllIngestion` from
  `src/backend/src/jobs/runOnce.ts`.

JavaScript numbers are modelled as exact rationals carrying an explicit
finiteness flag (`JsNum`): a non-finite number (`NaN`, `±Infinity`) is
represented with `isFinite = false` and an unspecified rational payload.
All arithmetic in the ingestion core happens after validation has rejected
non-finite values, so the payload of a non-finite number is never consulted.

The Postgres store is modelled as a list of rows in insertion order; a SQL
`SELECT ... ORDER BY data_version DESC LIMIT 1` becomes a fold picking the
row of maximal `data_version` for the key, and a transaction becomes an
explicit commit/rollback on the whole run, with storage faults injected by
record index.
-/

namespace GlobeIngestion

/-- Model of a JavaScript number: an exact rational plus a finiteness flag. -/
structure JsNum where
  isFinite : Bool
  toRat : Rat
deriving DecidableEq, Repr

/-- A candidate observation, `IndicatorRecord` from `types.ts`. -/
structure IndicatorRecord where
  countryCode : String
  value : JsNum
  effectiveDate : String
deriving DecidableEq, Repr

/-- One stored row of the `indicator_values` table. -/
structure Row where
  country_code : String
  indicator_id : String
  effective_date : String
  value : Rat
  fetched_at : Nat
  data_version : Nat
deriving DecidableEq, Repr

/-- The result record returned by `upsertIndicatorValues`. -/
structure IngestionResult where
  inserted : Nat
  updated : Nat
  skipped : Nat
  errors : List String
deriving DecidableEq, Repr

/-- Test of the regular expression `^[A-Z]{2}$` (two uppercase ASCII letters);
an empty string also fails, subsuming the falsiness check on `countryCode`. -/
def isCountryCodeShape (s : String) : Bool :=
  s.toList.length == 2 && s.toList.all (fun c => 'A' ≤ c && c ≤ 'Z')

/-- Test of the regular expression `^\d{4}-\d{2}-\d{2}$`. -/
def isDateShape (s : String) : Bool :=
  match s.toList with
  | [a, b, c, d, h1, e, f, h2, g, i] =>
    a.isDigit && b.isDigit && c.isDigit && d.isDigit && h1 == '-' &&
    e.isDigit && f.isDigit && h2 == '-' && g.isDigit && i.isDigit
  | _ => false

/-- `validateRecord` from `upsert.ts`: structural validation of one record,
returning an error message on failure and `none` on success. -/
def validateRecord (record : IndicatorRecord) : Option String :=
  if !(isCountryCodeShape record.countryCode) then
    some ("Invalid country_code: " ++ record.countryCode)
  else if !record.value.isFinite then
    some ("Invalid value for " ++ record.countryCode)
  else if !(isDateShape record.effectiveDate) then
    some ("Invalid effective_date for " ++ record.countryCode ++ ": " ++ record.effectiveDate)
  else
    none

/-- The dedup tolerance `0.0001` used in the value comparison. -/
def tol : Rat := 1 / 10000

/-- The (country, indicator, effective date) key of a stored row. -/
def rowKey (r : Row) : String × String × String :=
  (r.country_code, r.indicator_id, r.effective_date)

/-- The key a candidate record addresses for a given indicator. -/
def recKey (indicatorId : String) (r : IndicatorRecord) : String × String × String :=
  (r.countryCode, indicatorId, r.effectiveDate)

/-- All stored rows for one key, in insertion order. -/
def keyRows (store : List Row) (k : String × String × String) : List Row :=
  store.filter (fun r => rowKey r = k)

/-- The stored data versions for one key, in insertion order. -/
def versionsOf (store : List Row) (k : String × String × String) : List Nat :=
  (keyRows store k).map (fun r => r.data_version)

/-- One step of the `ORDER BY data_version DESC LIMIT 1` query: keep the
matching row of larger data version. -/
def latestStep (k : String × String × String) (acc : Option Row) (r : Row) : Option Row :=
  if rowKey r = k then
    match acc with
    | none => some r
    | some b => if b.data_version < r.data_version then some r else some b
  else acc

/-- The row of maximal data version for a key, modelling the SQL query
`SELECT ... WHERE <key> ORDER BY data_version DESC LIMIT 1`. -/
def latestRow (store : List Row) (k : String × String × String) : Option Row :=
  store.foldl (latestStep k) none

/-- The row written by the `INSERT INTO indicator_values ...` statement for
a candidate record at a given data version. -/
def insRow (indicatorId : String) (fetchedAt : Nat) (record : IndicatorRecord)
    (version : Nat) : Row :=
  ⟨record.countryCode, indicatorId, record.effectiveDate,
    record.value.toRat, fetchedAt, version⟩

/-- The in-transaction state of one `upsertIndicatorValues` run: pending
store contents plus the accumulated result counters. -/
structure UpsertState where
  store : List Row
  inserted : Nat
  updated : Nat
  skipped : Nat
  errors : List String
deriving DecidableEq, Repr

/-- Initial state of a run over a given committed store. -/
def initState (store : List Row) : UpsertState :=
  ⟨store, 0, 0, 0, []⟩

/-- The per-record body of the loop in `upsertIndicatorValues`: validate,
check the country registry, look up the latest stored version for the key,
then dedup-skip, insert a new version, or insert version 1. -/
def processRecord (registry : List String) (indicatorId : String) (fetchedAt : Nat)
    (st : UpsertState) (record : IndicatorRecord) : UpsertState :=
  match validateRecord record with
  | some e => { st with errors := st.errors ++ [e] }
  | none =>
    if record.countryCode ∈ registry then
      match latestRow st.store (recKey indicatorId record) with
      | some b =>
        if |b.value - record.value.toRat| < tol then
          { st with skipped := st.skipped + 1 }
        else
          { st with
              store := st.store ++ [insRow indicatorId fetchedAt record (b.data_version + 1)],
              updated := st.updated + 1 }
      | none =>
        { st with
            store := st.store ++ [insRow indicatorId fetchedAt record 1],
            inserted := st.inserted + 1 }
    else
      { st with skipped := st.skipped + 1 }

/-- `upsertIndicatorValues` on its fault-free execution path: the loop body
folded over the batch in input order, starting from the committed store. -/
def upsertIndicatorValues (registry : List String) (indicatorId : String)
    (records : List IndicatorRecord) (fetchedAt : Nat) (store : List Row) : UpsertState :=
  records.foldl (processRecord registry indicatorId fetchedAt) (initState store)

/-- The transaction body of `upsertIndicatorValues` with an injected storage
fault: processing aborts with an error when the record at index `failIdx`
is reached. -/
def runRecordsTx (registry : List String) (indicatorId : String) (fetchedAt : Nat)
    (failIdx : Option Nat) :
    List IndicatorRecord → Nat → UpsertState → Except String UpsertState
  | [], _, st => .ok st
  | r :: rs, i, st =>
    if failIdx = some i then .error "storage error"
    else runRecordsTx registry indicatorId fetchedAt failIdx rs (i + 1)
      (processRecord registry indicatorId fetchedAt st r)

/-- Outcome of one transactional run: the committed store after the call
and what the caller observes (counts, or the propagated error). -/
structure TxOutcome where
  store : List Row
  result : Except String IngestionResult
deriving Repr

/-- `upsertIndicatorValues` with transaction semantics: on success the
pending writes are committed; on a storage error the transaction is rolled
back (the committed store reverts to its pre-run contents) and the error
propagates to the caller. -/
def upsertIndicatorValuesTx (registry : List String) (indicatorId : String)
    (records : List IndicatorRecord) (fetchedAt : Nat) (failIdx : Option Nat)
    (store : List Row) : TxOutcome :=
  match runRecordsTx registry indicatorId fetchedAt failIdx records 0 (initState store) with
  | .ok st => ⟨st.store, .ok ⟨st.inserted, st.updated, st.skipped, st.errors⟩⟩
  | .error e => ⟨store, .error e⟩

/-- Recursion worker for `chunksOf`: the fuel argument (initially the list
length) makes the recursion structural; every step consumes at least one
record, so the fuel never runs out before the list does. -/
def chunksGo (n : Nat) : Nat → List IndicatorRecord → List (List IndicatorRecord)
  | _, [] => []
  | 0, _ :: _ => []
  | fuel + 1, x :: xs => (x :: xs.take (n - 1)) :: chunksGo n fuel (xs.drop (n - 1))

/-- Chunking of a record list into batches of `n` records (the
`records.slice(i, i + batchSize)` loop of `bulkUpsertHistoricalData`). -/
def chunksOf (n : Nat) (l : List IndicatorRecord) : List (List IndicatorRecord) :=
  chunksGo n l.length l

/-- The in-transaction state of one `bulkUpsertHistoricalData` run. -/
structure BulkState where
  store : List Row
  inserted : Nat
  skipped : Nat
deriving DecidableEq, Repr

/-- The per-record body of `bulkUpsertHistoricalData`: validate the country
code shape, check the registry, then skip whenever any row exists for the
key (both the same-value and the differing-value branch skip), otherwise
insert version 1 with `ON CONFLICT ... DO NOTHING`. -/
def processBulkRecord (registry : List String) (indicatorId : String) (now : Nat)
    (st : BulkState) (record : IndicatorRecord) : BulkState :=
  if !(isCountryCodeShape record.countryCode) then
    { st with skipped := st.skipped + 1 }
  else if record.countryCode ∈ registry then
    match latestRow st.store (recKey indicatorId record) with
    | some b =>
      if |b.value - record.value.toRat| < tol then
        { st with skipped := st.skipped + 1 }
      else
        { st with skipped := st.skipped + 1 }
    | none =>
      let conflict := st.store.any (fun r =>
        rowKey r = recKey indicatorId record && r.data_version == 1)
      { st with
          store := if conflict then st.store else st.store ++ [insRow indicatorId now record 1],
          inserted := st.inserted + 1 }
  else
    { st with skipped := st.skipped + 1 }

/-- `bulkUpsertHistoricalData` on its fault-free execution path: the batch
loop folded over the chunks, all inside one run. -/
def bulkUpsertHistoricalData (registry : List String) (indicatorId : String)
    (records : List IndicatorRecord) (batchSize : Nat) (now : Nat)
    (store : List Row) : BulkState :=
  (chunksOf batchSize records).foldl
    (fun st batch => batch.foldl (processBulkRecord registry indicatorId now) st)
    ⟨store, 0, 0⟩

/-- One batch of the bulk loader with an injected storage fault, threading
the global record index. -/
def runBulkRecsTx (registry : List String) (indicatorId : String) (now : Nat)
    (failIdx : Option Nat) :
    List IndicatorRecord → Nat → BulkState → Except String (Nat × BulkState)
  | [], i, st => .ok (i, st)
  | r :: rs, i, st =>
    if failIdx = some i then .error "storage error"
    else runBulkRecsTx registry indicatorId now failIdx rs (i + 1)
      (processBulkRecord registry indicatorId now st r)

/-- The batch loop of the bulk loader with an injected storage fault. -/
def runBulkChunksTx (registry : List String) (indicatorId : String) (now : Nat)
    (failIdx : Option Nat) :
    List (List IndicatorRecord) → Nat → BulkState → Except String (Nat × BulkState)
  | [], i, st => .ok (i, st)
  | c :: cs, i, st =>
    match runBulkRecsTx registry indicatorId now failIdx c i st with
    | .error e => .error e
    | .ok (j, st') => runBulkChunksTx registry indicatorId now failIdx cs j st'

/-- Outcome of one transactional bulk run: the committed store after the
call, and the `{ inserted, skipped }` counts or the propagated error. -/
structure BulkTxOutcome where
  store : List Row
  result : Except String (Nat × Nat)
deriving Repr

/-- `bulkUpsertHistoricalData` with transaction semantics: the whole run
(all batches) executes under a single `BEGIN`/`COMMIT`; any storage error
rolls back every row written in the run and propagates. -/
def bulkUpsertHistoricalDataTx (registry : List String) (indicatorId : String)
    (records : List IndicatorRecord) (batchSize : Nat) (now : Nat)
    (failIdx : Option Nat) (store : List Row) : BulkTxOutcome :=
  match runBulkChunksTx registry indicatorId now failIdx (chunksOf batchSize records) 0
      ⟨store, 0, 0⟩ with
  | .ok (_, st) => ⟨st.store, .ok (st.inserted, st.skipped)⟩
  | .error e => ⟨store, .error e⟩

/-- One row of the `ingestion_logs` table as written by `logIngestion`. -/
structure LedgerEntry where
  job_name : String
  status : String
  items_inserted : Nat
  items_updated : Nat
  error_message : Option String
deriving DecidableEq, Repr

/-- `logIngestion`: append exactly one audit row for the run. -/
def logIngestion (ledger : List LedgerEntry) (jobName status : String)
    (result : IngestionResult) (errorMessage : Option String) : List LedgerEntry :=
  ledger ++ [⟨jobName, status, result.inserted, result.updated, errorMessage⟩]

/-- The zero counts reported by the failure path of `runAllIngestion`. -/
def emptyResult : IngestionResult :=
  ⟨0, 0, 0, []⟩

/-- The loop body of `runAllIngestion` for one job: fetch, upsert, derive
the status, and write the ledger entry; any thrown error is caught and
logged as a `"failure"` entry with zero counts. -/
def runJob (registry : List String) (jobName indicatorId : String)
    (fetched : Except String (List IndicatorRecord)) (startedAt : Nat)
    (failIdx : Option Nat) (store : List Row) (ledger : List LedgerEntry) :
    List Row × List LedgerEntry :=
  match fetched with
  | .error e => (store, logIngestion ledger jobName "failure" emptyResult (some e))
  | .ok records =>
    let out := upsertIndicatorValuesTx registry indicatorId records startedAt failIdx store
    match out.result with
    | .ok result =>
      let status := if result.errors.length > 0 then "partial" else "success"
      let msg :=
        if result.errors.length > 0 then
          some (String.intercalate "; " (result.errors.take 5))
        else none
      (out.store, logIngestion ledger jobName status result msg)
    | .error e => (out.store, logIngestion ledger jobName "failure" emptyResult (some e))

/-- One run in a sequence of incremental upsert runs. -/
structure RunSpec where
  registry : List String
  indicatorId : String
  records : List IndicatorRecord
  fetchedAt : Nat
deriving Repr

/-- Apply a sequence of `upsertIndicatorValues` runs to a store, committing
each run's writes. -/
def applyRuns (runs : List RunSpec) (store : List Row) : List Row :=
  runs.foldl
    (fun s sp => (upsertIndicatorValues sp.registry sp.indicatorId sp.records sp.fetchedAt s).store)
    store

/-- The dense-version invariant: for every key the stored versions, in
insertion order, are exactly `[1, 2, ..., N]`. -/
def Dense (store : List Row) : Prop :=
  ∀ k, versionsOf store k = List.range' 1 (versionsOf store k).length

/-- The latest-version row for every key is the chronologically last row
written for that key. -/
def LatestIsLast (store : List Row) : Prop :=
  ∀ k, latestRow store k = (keyRows store k).getLast?

/-- A record that the upsert engine accepts for persistence: structurally
valid and referentially valid (its country is in the registry). -/
def Accepted (registry : List String) (r : IndicatorRecord) : Prop :=
  validateRecord r = none ∧ r.countryCode ∈ registry

/-- The latest stored row for the record's key agrees with the record's
value up to the dedup tolerance. -/
def GoodFor (indicatorId : String) (store : List Row) (r : IndicatorRecord) : Prop :=
  ∃ b, latestRow store (recKey indicatorId r) = some b ∧ |b.value - r.value.toRat| < tol

lemma tol_pos : 0 < tol := by norm_num [tol]

lemma rowKey_insRow (ind : String) (fa : Nat) (r : IndicatorRecord) (v : Nat) :
    rowKey (insRow ind fa r v) = recKey ind r := rfl

lemma keyRows_append (s t : List Row) (k : String × String × String) :
    keyRows (s ++ t) k = keyRows s k ++ keyRows t k := by
  simp [keyRows, List.filter_append]

lemma latestRow_append_singleton (s : List Row) (r : Row) (k : String × String × String) :
    latestRow (s ++ [r]) k = latestStep k (latestRow s k) r := by
  simp [latestRow, List.foldl_append]

lemma latestStep_eq_none (k : String × String × String) (acc : Option Row) (r : Row) :
    latestStep k acc r = none ↔ acc = none ∧ ¬(rowKey r = k) := by
  unfold latestStep
  split
  · cases acc
    · simp_all
    · simp_all
      split <;> simp
  · simp_all

lemma foldl_latestStep_eq_none (k : String × String × String) :
    ∀ (l : List Row) (acc : Option Row),
      l.foldl (latestStep k) acc = none ↔ acc = none ∧ keyRows l k = [] := by
  intro l
  induction l with
  | nil => intro acc; simp [keyRows]
  | cons r l ih =>
    intro acc
    rw [List.foldl_cons, ih, latestStep_eq_none]
    constructor
    · rintro ⟨⟨h1, h2⟩, h3⟩
      refine ⟨h1, ?_⟩
      simp [keyRows, List.filter_cons, h2]
      simpa [keyRows] using h3
    · rintro ⟨h1, h2⟩
      simp only [keyRows, List.filter_cons] at h2
      by_cases hk : rowKey r = k
      · simp [hk] at h2
      · exact ⟨⟨h1, hk⟩, by simpa [keyRows, hk] using h2⟩

lemma latestRow_eq_none_iff (s : List Row) (k : String × String × String) :
    latestRow s k = none ↔ keyRows s k = [] := by
  unfold latestRow
  rw [foldl_latestStep_eq_none]
  simp

lemma processRecord_invalid (reg : List String) (ind : String) (fa : Nat)
    (st : UpsertState) (r : IndicatorRecord) (e : String)
    (h : validateRecord r = some e) :
    processRecord reg ind fa st r = { st with errors := st.errors ++ [e] } := by
  simp [processRecord, h]

lemma processRecord_unknownCountry (reg : List String) (ind : String) (fa : Nat)
    (st : UpsertState) (r : IndicatorRecord)
    (hv : validateRecord r = none) (hc : r.countryCode ∉ reg) :
    processRecord reg ind fa st r = { st with skipped := st.skipped + 1 } := by
  simp [processRecord, hv, hc]

lemma processRecord_insertNew (reg : List String) (ind : String) (fa : Nat)
    (st : UpsertState) (r : IndicatorRecord)
    (hv : validateRecord r = none) (hc : r.countryCode ∈ reg)
    (hn : latestRow st.store (recKey ind r) = none) :
    processRecord reg ind fa st r =
      { st with store := st.store ++ [insRow ind fa r 1], inserted := st.inserted + 1 } := by
  simp [processRecord, hv, hc, hn]

lemma processRecord_dedup (reg : List String) (ind : String) (fa : Nat)
    (st : UpsertState) (r : IndicatorRecord) (b : Row)
    (hv : validateRecord r = none) (hc : r.countryCode ∈ reg)
    (hb : latestRow st.store (recKey ind r) = some b)
    (hd : |b.value - r.value.toRat| < tol) :
    processRecord reg ind fa st r = { st with skipped := st.skipped + 1 } := by
  simp [processRecord, hv, hc, hb, hd]

lemma processRecord_newVersion (reg : List String) (ind : String) (fa : Nat)
    (st : UpsertState) (r : IndicatorRecord) (b : Row)
    (hv : validateRecord r = none) (hc : r.countryCode ∈ reg)
    (hb : latestRow st.store (recKey ind r) = some b)
    (hd : ¬(|b.value - r.value.toRat| < tol)) :
    processRecord reg ind fa st r =
      { st with store := st.store ++ [insRow ind fa r (b.data_version + 1)],
                updated := st.updated + 1 } := by
  simp [processRecord, hv, hc, hb, hd]

lemma processRecord_store_cases (reg : List String) (ind : String) (fa : Nat)
    (st : UpsertState) (r : IndicatorRecord) :
    (processRecord reg ind fa st r).store = st.store ∨
      (∃ v, Accepted reg r ∧
        (processRecord reg ind fa st r).store = st.store ++ [insRow ind fa r v]) := by
  unfold processRecord
  cases hv : validateRecord r with
  | some e => simp
  | none =>
    by_cases hc : r.countryCode ∈ reg
    · simp only [hc, if_pos]
      cases hb : latestRow st.store (recKey ind r) with
      | none => exact Or.inr ⟨1, ⟨hv, hc⟩, rfl⟩
      | some b =>
        by_cases hd : |b.value - r.value.toRat| < tol
        · simp [hd]
        · simp only [hd, if_neg, not_false_iff]
          exact Or.inr ⟨b.data_version + 1, ⟨hv, hc⟩, by simp⟩
    · simp [hc]

lemma latestStep_none_match (k : String × String × String) (r : Row) (h : rowKey r = k) :
    latestStep k none r = some r := by
  simp [latestStep, h]

lemma latestStep_some_lt (k : String × String × String) (b r : Row)
    (h : rowKey r = k) (hlt : b.data_version < r.data_version) :
    latestStep k (some b) r = some r := by
  simp [latestStep, h, hlt]

lemma latestRow_processRecord_frame (reg : List String) (ind : String) (fa : Nat)
    (st : UpsertState) (r : IndicatorRecord) (k : String × String × String)
    (h : Accepted reg r → recKey ind r ≠ k) :
    latestRow (processRecord reg ind fa st r).store k = latestRow st.store k := by
  rcases processRecord_store_cases reg ind fa st r with hs | ⟨v, hacc, hs⟩
  · rw [hs]
  · rw [hs, latestRow_append_singleton]
    unfold latestStep
    rw [rowKey_insRow]
    simp [h hacc]

lemma processRecord_goodFor (reg : List String) (ind : String) (fa : Nat)
    (st : UpsertState) (r : IndicatorRecord)
    (hv : validateRecord r = none) (hc : r.countryCode ∈ reg) :
    GoodFor ind (processRecord reg ind fa st r).store r := by
  cases hb : latestRow st.store (recKey ind r) with
  | none =>
    rw [processRecord_insertNew reg ind fa st r hv hc hb]
    refine ⟨insRow ind fa r 1, ?_, ?_⟩
    · rw [latestRow_append_singleton, hb, latestStep_none_match _ _ (rowKey_insRow ..)]
    · simpa [insRow] using tol_pos
  | some b =>
    by_cases hd : |b.value - r.value.toRat| < tol
    · rw [processRecord_dedup reg ind fa st r b hv hc hb hd]
      exact ⟨b, hb, hd⟩
    · rw [processRecord_newVersion reg ind fa st r b hv hc hb hd]
      refine ⟨insRow ind fa r (b.data_version + 1), ?_, ?_⟩
      · rw [latestRow_append_singleton, hb,
          latestStep_some_lt _ _ _ (rowKey_insRow ..) (by simp [insRow])]
      · simpa [insRow] using tol_pos

lemma foldl_latestRow_frame (reg : List String) (ind : String) (fa : Nat)
    (k : String × String × String) :
    ∀ (records : List IndicatorRecord) (st : UpsertState),
      (∀ r ∈ records, Accepted reg r → recKey ind r ≠ k) →
      latestRow (records.foldl (processRecord reg ind fa) st).store k = latestRow st.store k := by
  intro records
  induction records with
  | nil => intro st _; rfl
  | cons r rs ih =>
    intro st h
    rw [List.foldl_cons, ih _ (fun x hx => h x (List.mem_cons_of_mem _ hx)),
      latestRow_processRecord_frame reg ind fa st r k (h r (List.mem_cons_self r rs))]

lemma processRecord_skip_of_goodFor (reg : List String) (ind : String) (fa : Nat)
    (st : UpsertState) (r : IndicatorRecord)
    (hg : GoodFor ind st.store r) (hv : validateRecord r = none) (hc : r.countryCode ∈ reg) :
    processRecord reg ind fa st r = { st with skipped := st.skipped + 1 } := by
  obtain ⟨b, hb, hd⟩ := hg
  exact processRecord_dedup reg ind fa st r b hv hc hb hd

lemma foldl_goodFor (reg : List String) (ind : String) (fa : Nat) :
    ∀ (records : List IndicatorRecord) (st : UpsertState),
      records.Pairwise
        (fun a b => Accepted reg a → Accepted reg b → recKey ind a ≠ recKey ind b) →
      ∀ r ∈ records, Accepted reg r →
        GoodFor ind (records.foldl (processRecord reg ind fa) st).store r := by
  intro records
  induction records with
  | nil => intro st _ r hr; cases hr
  | cons x rs ih =>
    intro st hpw r hr hacc
    rw [List.pairwise_cons] at hpw
    obtain ⟨hx, hpw'⟩ := hpw
    rw [List.foldl_cons]
    rcases List.mem_cons.mp hr with rfl | hr'
    · obtain ⟨b, hb, hd⟩ := processRecord_goodFor reg ind fa st r hacc.1 hacc.2
      refine ⟨b, ?_, hd⟩
      rw [foldl_latestRow_frame reg ind fa (recKey ind r) rs _ ?_, hb]
      intro y hy hay
      exact (hx y hy hacc hay).symm
    · exact ih _ hpw' r hr' hacc

lemma foldl_noop_of_goodFor (reg : List String) (ind : String) (fa : Nat) :
    ∀ (records : List IndicatorRecord) (st : UpsertState),
      (∀ r ∈ records, Accepted reg r → GoodFor ind st.store r) →
      (records.foldl (processRecord reg ind fa) st).store = st.store ∧
      (records.foldl (processRecord reg ind fa) st).inserted = st.inserted ∧
      (records.foldl (processRecord reg ind fa) st).updated = st.updated := by
  intro records
  induction records with
  | nil => intro st _; exact ⟨rfl, rfl, rfl⟩
  | cons r rs ih =>
    intro st h
    rw [List.foldl_cons]
    have hstep : (processRecord reg ind fa st r).store = st.store ∧
        (processRecord reg ind fa st r).inserted = st.inserted ∧
        (processRecord reg ind fa st r).updated = st.updated := by
      cases hv : validateRecord r with
      | some e => rw [processRecord_invalid reg ind fa st r e hv]; exact ⟨rfl, rfl, rfl⟩
      | none =>
        by_cases hc : r.countryCode ∈ reg
        · rw [processRecord_skip_of_goodFor reg ind fa st r
            (h r (List.mem_cons_self r rs) ⟨hv, hc⟩) hv hc]
          exact ⟨rfl, rfl, rfl⟩
        · rw [processRecord_unknownCountry reg ind fa st r hv hc]; exact ⟨rfl, rfl, rfl⟩
    have h' : ∀ x ∈ rs, Accepted reg x → GoodFor ind (processRecord reg ind fa st r).store x := by
      intro x hx hax
      rw [hstep.1]
      exact h x (List.mem_cons_of_mem _ hx) hax
    obtain ⟨h1, h2, h3⟩ := ih _ h'
    exact ⟨h1.trans hstep.1, h2.trans hstep.2.1, h3.trans hstep.2.2⟩

lemma processRecord_count (reg : List String) (ind : String) (fa : Nat)
    (st : UpsertState) (r : IndicatorRecord) :
    (processRecord reg ind fa st r).inserted + (processRecord reg ind fa st r).updated +
      (processRecord reg ind fa st r).skipped + (processRecord reg ind fa st r).errors.length =
    st.inserted + st.updated + st.skipped + st.errors.length + 1 := by
  cases hv : validateRecord r with
  | some e =>
    rw [processRecord_invalid reg ind fa st r e hv]
    simp
    omega
  | none =>
    by_cases hc : r.countryCode ∈ reg
    · cases hb : latestRow st.store (recKey ind r) with
      | none =>
        rw [processRecord_insertNew reg ind fa st r hv hc hb]
        simp
        omega
      | some b =>
        by_cases hd : |b.value - r.value.toRat| < tol
        · rw [processRecord_dedup reg ind fa st r b hv hc hb hd]
          simp
          omega
        · rw [processRecord_newVersion reg ind fa st r b hv hc hb hd]
          simp
          omega
    · rw [processRecord_unknownCountry reg ind fa st r hv hc]
      simp
      omega

lemma foldl_count (reg : List String) (ind : String) (fa : Nat) :
    ∀ (records : List IndicatorRecord) (st : UpsertState),
      (records.foldl (processRecord reg ind fa) st).inserted +
        (records.foldl (processRecord reg ind fa) st).updated +
        (records.foldl (processRecord reg ind fa) st).skipped +
        (records.foldl (processRecord reg ind fa) st).errors.length =
      st.inserted + st.updated + st.skipped + st.errors.length + records.length := by
  intro records
  induction records with
  | nil => intro st; simp
  | cons r rs ih =>
    intro st
    rw [List.foldl_cons, ih, processRecord_count]
    simp
    omega

lemma runRecordsTx_fault (reg : List String) (ind : String) (fa : Nat) (n : Nat) :
    ∀ (rs : List IndicatorRecord) (i : Nat) (st : UpsertState),
      i ≤ n → n < i + rs.length →
      runRecordsTx reg ind fa (some n) rs i st = .error "storage error" := by
  intro rs
  induction rs with
  | nil =>
    intro i st h1 h2
    simp only [List.length_nil] at h2
    omega
  | cons r rs ih =>
    intro i st h1 h2
    unfold runRecordsTx
    by_cases he : n = i
    · subst he; simp
    · rw [if_neg (by simpa using he)]
      exact ih (i + 1) _ (by omega) (by simp only [List.length_cons] at h2; omega)

lemma runRecordsTx_none (reg : List String) (ind : String) (fa : Nat) :
    ∀ (rs : List IndicatorRecord) (i : Nat) (st : UpsertState),
      runRecordsTx reg ind fa none rs i st =
        .ok (rs.foldl (processRecord reg ind fa) st) := by
  intro rs
  induction rs with
  | nil => intro i st; rfl
  | cons r rs ih =>
    intro i st
    unfold runRecordsTx
    rw [if_neg (by simp)]
    rw [ih, List.foldl_cons]

lemma upsertTx_none (reg : List String) (ind : String)
    (records : List IndicatorRecord) (fa : Nat) (store : List Row) :
    upsertIndicatorValuesTx reg ind records fa none store =
      ⟨(upsertIndicatorValues reg ind records fa store).store,
        .ok ⟨(upsertIndicatorValues reg ind records fa store).inserted,
             (upsertIndicatorValues reg ind records fa store).updated,
             (upsertIndicatorValues reg ind records fa store).skipped,
             (upsertIndicatorValues reg ind records fa store).errors⟩⟩ := by
  unfold upsertIndicatorValuesTx upsertIndicatorValues
  rw [runRecordsTx_none]

lemma processRecord_store_extend (reg : List String) (ind : String) (fa : Nat)
    (st : UpsertState) (r : IndicatorRecord) :
    ∃ ext, (processRecord reg ind fa st r).store = st.store ++ ext := by
  rcases processRecord_store_cases reg ind fa st r with hs | ⟨v, _, hs⟩
  · exact ⟨[], by simp [hs]⟩
  · exact ⟨_, hs⟩

lemma foldl_store_extend (reg : List String) (ind : String) (fa : Nat) :
    ∀ (records : List IndicatorRecord) (st : UpsertState),
      ∃ ext, (records.foldl (processRecord reg ind fa) st).store = st.store ++ ext := by
  intro records
  induction records with
  | nil => intro st; exact ⟨[], by simp⟩
  | cons r rs ih =>
    intro st
    obtain ⟨e1, h1⟩ := processRecord_store_extend reg ind fa st r
    obtain ⟨e2, h2⟩ := ih (processRecord reg ind fa st r)
    exact ⟨e1 ++ e2, by rw [List.foldl_cons, h2, h1, List.append_assoc]⟩

lemma upsert_store_extend (reg : List String) (ind : String)
    (records : List IndicatorRecord) (fa : Nat) (store : List Row) :
    ∃ ext, (upsertIndicatorValues reg ind records fa store).store = store ++ ext :=
  foldl_store_extend reg ind fa records (initState store)

lemma versionsOf_append (s t : List Row) (k : String × String × String) :
    versionsOf (s ++ t) k = versionsOf s k ++ versionsOf t k := by
  simp [versionsOf, keyRows_append]

lemma keyRows_singleton (r : Row) (k : String × String × String) :
    keyRows [r] k = if rowKey r = k then [r] else [] := by
  by_cases h : rowKey r = k <;> simp [keyRows, h]

lemma latest_version_eq_length (s : List Row) (k : String × String × String) (b : Row)
    (hD : Dense s) (hL : LatestIsLast s) (hb : latestRow s k = some b) :
    b.data_version = (keyRows s k).length := by
  have h1 : (keyRows s k).getLast? = some b := by rw [← hL k, hb]
  have h3 : (versionsOf s k).getLast? = some b.data_version := by
    rw [versionsOf, List.getLast?_map, h1, Option.map_some']
  have hne : keyRows s k ≠ [] := by
    intro h
    rw [h] at h1
    simp at h1
  have hlen : (versionsOf s k).length = (keyRows s k).length := by simp [versionsOf]
  obtain ⟨m, hm⟩ : ∃ m, (versionsOf s k).length = m + 1 := by
    have := List.length_pos.mpr hne
    exact ⟨(keyRows s k).length - 1, by omega⟩
  rw [hD k, hm, List.range'_concat, List.getLast?_concat] at h3
  have h4 : 1 + 1 * m = b.data_version := by simpa using h3
  omega

lemma inv_append_row (s : List Row) (row : Row)
    (hD : Dense s) (hL : LatestIsLast s)
    (hver : row.data_version = (keyRows s (rowKey row)).length + 1) :
    Dense (s ++ [row]) ∧ LatestIsLast (s ++ [row]) := by
  constructor
  · intro k
    by_cases hk : rowKey row = k
    · have hone : versionsOf [row] k = [row.data_version] := by
        simp [versionsOf, keyRows_singleton, hk]
      rw [versionsOf_append, hone, hD k]
      have hN : (List.range' 1 (versionsOf s k).length ++ [row.data_version]).length =
          (versionsOf s k).length + 1 := by simp
      rw [hN, List.range'_concat]
      have hlen : (versionsOf s k).length = (keyRows s k).length := by simp [versionsOf]
      have : row.data_version = 1 + 1 * (versionsOf s k).length := by
        rw [hver, hk] at *
        omega
      rw [this]
    · have hzero : versionsOf [row] k = [] := by
        simp [versionsOf, keyRows_singleton, hk]
      rw [versionsOf_append, hzero, List.append_nil]
      exact hD k
  · intro k
    rw [latestRow_append_singleton, keyRows_append, keyRows_singleton]
    by_cases hk : rowKey row = k
    · rw [if_pos hk]
      cases hb : latestRow s k with
      | none =>
        rw [latestStep_none_match _ _ hk]
        have hempty : keyRows s k = [] := (latestRow_eq_none_iff s k).mp hb
        rw [hempty]
        simp
      | some b =>
        have hbv : b.data_version = (keyRows s k).length :=
          latest_version_eq_length s k b hD hL hb
        have hlt : b.data_version < row.data_version := by
          rw [hbv, hver, hk]
          omega
        rw [latestStep_some_lt _ _ _ hk hlt, List.getLast?_concat]
    · rw [if_neg hk]
      have : latestStep k (latestRow s k) row = latestRow s k := by
        unfold latestStep
        rw [if_neg hk]
      rw [this, List.append_nil]
      exact hL k

lemma inv_processRecord (reg : List String) (ind : String) (fa : Nat)
    (st : UpsertState) (r : IndicatorRecord)
    (hD : Dense st.store) (hL : LatestIsLast st.store) :
    Dense (processRecord reg ind fa st r).store ∧
      LatestIsLast (processRecord reg ind fa st r).store := by
  cases hv : validateRecord r with
  | some e =>
    rw [processRecord_invalid reg ind fa st r e hv]
    exact ⟨hD, hL⟩
  | none =>
    by_cases hc : r.countryCode ∈ reg
    · cases hb : latestRow st.store (recKey ind r) with
      | none =>
        rw [processRecord_insertNew reg ind fa st r hv hc hb]
        refine inv_append_row st.store _ hD hL ?_
        rw [rowKey_insRow]
        have hempty : keyRows st.store (recKey ind r) = [] :=
          (latestRow_eq_none_iff st.store (recKey ind r)).mp hb
        simp [insRow, hempty]
      | some b =>
        by_cases hd : |b.value - r.value.toRat| < tol
        · rw [processRecord_dedup reg ind fa st r b hv hc hb hd]
          exact ⟨hD, hL⟩
        · rw [processRecord_newVersion reg ind fa st r b hv hc hb hd]
          refine inv_append_row st.store _ hD hL ?_
          rw [rowKey_insRow]
          have hbv : b.data_version = (keyRows st.store (recKey ind r)).length :=
            latest_version_eq_length st.store (recKey ind r) b hD hL hb
          simp [insRow, hbv]
    · rw [processRecord_unknownCountry reg ind fa st r hv hc]
      exact ⟨hD, hL⟩

lemma inv_foldl (reg : List String) (ind : String) (fa : Nat) :
    ∀ (records : List IndicatorRecord) (st : UpsertState),
      Dense st.store → LatestIsLast st.store →
      Dense (records.foldl (processRecord reg ind fa) st).store ∧
        LatestIsLast (records.foldl (processRecord reg ind fa) st).store := by
  intro records
  induction records with
  | nil => intro st hD hL; exact ⟨hD, hL⟩
  | cons r rs ih =>
    intro st hD hL
    rw [List.foldl_cons]
    obtain ⟨hD', hL'⟩ := inv_processRecord reg ind fa st r hD hL
    exact ih _ hD' hL'

lemma inv_upsert (reg : List String) (ind : String)
    (records : List IndicatorRecord) (fa : Nat) (store : List Row)
    (hD : Dense store) (hL : LatestIsLast store) :
    Dense (upsertIndicatorValues reg ind records fa store).store ∧
      LatestIsLast (upsertIndicatorValues reg ind records fa store).store :=
  inv_foldl reg ind fa records (initState store) hD hL

lemma Dense_nil : Dense [] := by
  intro k
  simp [versionsOf, keyRows]

lemma LatestIsLast_nil : LatestIsLast [] := by
  intro k
  simp [latestRow, keyRows]

lemma inv_applyRuns :
    ∀ (runs : List RunSpec) (store : List Row),
      Dense store → LatestIsLast store →
      Dense (applyRuns runs store) ∧ LatestIsLast (applyRuns runs store) := by
  intro runs
  induction runs with
  | nil => intro store hD hL; exact ⟨hD, hL⟩
  | cons sp rs ih =>
    intro store hD hL
    obtain ⟨hD', hL'⟩ := inv_upsert sp.registry sp.indicatorId sp.records sp.fetchedAt store hD hL
    exact ih _ hD' hL'

lemma chunksGo_flatten (n : Nat) :
    ∀ (fuel : Nat) (l : List IndicatorRecord), l.length ≤ fuel →
      (chunksGo n fuel l).flatten = l := by
  intro fuel
  induction fuel with
  | zero =>
    intro l h
    have : l = [] := List.eq_nil_of_length_eq_zero (by omega)
    subst this
    rfl
  | succ fuel ih =>
    intro l h
    cases l with
    | nil => rfl
    | cons x xs =>
      rw [chunksGo]
      simp only [List.flatten_cons]
      rw [ih (xs.drop (n - 1)) (by simp only [List.length_drop]; simp only [List.length_cons] at h; omega)]
      simp [List.cons_append, List.take_append_drop]

lemma chunksOf_flatten (n : Nat) (l : List IndicatorRecord) :
    (chunksOf n l).flatten = l :=
  chunksGo_flatten n l.length l le_rfl

lemma foldl_chunks (f : BulkState → IndicatorRecord → BulkState) :
    ∀ (L : List (List IndicatorRecord)) (st : BulkState),
      L.foldl (fun s c => c.foldl f s) st = (L.flatten).foldl f st := by
  intro L
  induction L with
  | nil => intro st; rfl
  | cons c cs ih =>
    intro st
    rw [List.foldl_cons, ih, List.flatten_cons, List.foldl_append]

lemma bulk_eq_flat (reg : List String) (ind : String)
    (records : List IndicatorRecord) (bs now : Nat) (store : List Row) :
    bulkUpsertHistoricalData reg ind records bs now store =
      records.foldl (processBulkRecord reg ind now) ⟨store, 0, 0⟩ := by
  unfold bulkUpsertHistoricalData
  rw [foldl_chunks, chunksOf_flatten]

lemma processBulkRecord_badShape (reg : List String) (ind : String) (now : Nat)
    (st : BulkState) (r : IndicatorRecord)
    (h : isCountryCodeShape r.countryCode = false) :
    processBulkRecord reg ind now st r = { st with skipped := st.skipped + 1 } := by
  simp [processBulkRecord, h]

lemma processBulkRecord_unknownCountry (reg : List String) (ind : String) (now : Nat)
    (st : BulkState) (r : IndicatorRecord)
    (hs : isCountryCodeShape r.countryCode = true) (hc : r.countryCode ∉ reg) :
    processBulkRecord reg ind now st r = { st with skipped := st.skipped + 1 } := by
  simp [processBulkRecord, hs, hc]

lemma processBulkRecord_existing (reg : List String) (ind : String) (now : Nat)
    (st : BulkState) (r : IndicatorRecord) (b : Row)
    (hs : isCountryCodeShape r.countryCode = true) (hc : r.countryCode ∈ reg)
    (hb : latestRow st.store (recKey ind r) = some b) :
    processBulkRecord reg ind now st r = { st with skipped := st.skipped + 1 } := by
  simp [processBulkRecord, hs, hc, hb]

lemma processBulkRecord_store_cases (reg : List String) (ind : String) (now : Nat)
    (st : BulkState) (r : IndicatorRecord) :
    (processBulkRecord reg ind now st r).store = st.store ∨
      ((processBulkRecord reg ind now st r).store = st.store ++ [insRow ind now r 1] ∧
        latestRow st.store (recKey ind r) = none) := by
  unfold processBulkRecord
  by_cases hs : isCountryCodeShape r.countryCode
  · by_cases hc : r.countryCode ∈ reg
    · cases hb : latestRow st.store (recKey ind r) with
      | none =>
        simp only [hs, Bool.not_true, Bool.false_eq_true, if_false, hc, if_pos]
        by_cases hcf : st.store.any (fun x =>
            rowKey x = recKey ind r && x.data_version == 1)
        · simp [hcf]
        · simp [hcf, hb]
      | some b => simp [hs, hc, hb]
    · simp [hs, hc]
  · simp [processBulkRecord, Bool.of_not_eq_true hs]

lemma keyRows_bulk_step_frame (reg : List String) (ind : String) (now : Nat)
    (st : BulkState) (r : IndicatorRecord) (k : String × String × String)
    (hne : keyRows st.store k ≠ []) :
    keyRows (processBulkRecord reg ind now st r).store k = keyRows st.store k := by
  rcases processBulkRecord_store_cases reg ind now st r with hst | ⟨hst, hn⟩
  · rw [hst]
  · rw [hst, keyRows_append, keyRows_singleton]
    simp only [rowKey_insRow]
    by_cases hk : recKey ind r = k
    · exact absurd ((latestRow_eq_none_iff st.store k).mp (hk ▸ hn)) hne
    · rw [if_neg hk, List.append_nil]

lemma keyRows_bulk_foldl_frame (reg : List String) (ind : String) (now : Nat)
    (k : String × String × String) :
    ∀ (records : List IndicatorRecord) (st : BulkState),
      keyRows st.store k ≠ [] →
      keyRows ((records.foldl (processBulkRecord reg ind now) st)).store k =
        keyRows st.store k := by
  intro records
  induction records with
  | nil => intro st _; rfl
  | cons r rs ih =>
    intro st hne
    rw [List.foldl_cons]
    have hstep := keyRows_bulk_step_frame reg ind now st r k hne
    rw [ih _ (by rw [hstep]; exact hne), hstep]

lemma runBulkRecsTx_fault (reg : List String) (ind : String) (now n : Nat) :
    ∀ (rs : List IndicatorRecord) (i : Nat) (st : BulkState),
      i ≤ n → n < i + rs.length →
      runBulkRecsTx reg ind now (some n) rs i st = .error "storage error" := by
  intro rs
  induction rs with
  | nil =>
    intro i st h1 h2
    simp only [List.length_nil] at h2
    omega
  | cons r rs ih =>
    intro i st h1 h2
    unfold runBulkRecsTx
    by_cases he : n = i
    · subst he; simp
    · rw [if_neg (by simpa using he)]
      exact ih (i + 1) _ (by omega) (by simp only [List.length_cons] at h2; omega)

lemma runBulkRecsTx_pass (reg : List String) (ind : String) (now n : Nat) :
    ∀ (rs : List IndicatorRecord) (i : Nat) (st : BulkState),
      i + rs.length ≤ n →
      runBulkRecsTx reg ind now (some n) rs i st =
        .ok (i + rs.length, rs.foldl (processBulkRecord reg ind now) st) := by
  intro rs
  induction rs with
  | nil => intro i st _; simp [runBulkRecsTx]
  | cons r rs ih =>
    intro i st h
    unfold runBulkRecsTx
    rw [if_neg (by simp only [List.length_cons] at h; simp; omega)]
    rw [List.foldl_cons, ih (i + 1) _ (by simp only [List.length_cons] at h; omega)]
    simp only [List.length_cons, Option.some.injEq]
    congr 2
    omega

lemma runBulkChunksTx_fault (reg : List String) (ind : String) (now n : Nat) :
    ∀ (cs : List (List IndicatorRecord)) (i : Nat) (st : BulkState),
      i ≤ n → n < i + (cs.flatten).length →
      runBulkChunksTx reg ind now (some n) cs i st = .error "storage error" := by
  intro cs
  induction cs with
  | nil =>
    intro i st h1 h2
    simp only [List.flatten_nil, List.length_nil] at h2
    omega
  | cons c cs ih =>
    intro i st h1 h2
    unfold runBulkChunksTx
    by_cases hlt : n < i + c.length
    · rw [runBulkRecsTx_fault reg ind now n c i st h1 hlt]
    · rw [runBulkRecsTx_pass reg ind now n c i st (by omega)]
      refine ih (i + c.length) _ (by omega) ?_
      simp only [List.flatten_cons, List.length_append] at h2
      omega

/-- C1: per-record outcomes of the upsert engine. A structurally invalid
record is appended to the error list and processing continues with the next
record; a record whose country is absent from the registry increments
`skipped` and writes no row; an accepted record with no stored row for its
(country, indicator, effective date) key inserts a row with data version 1
and increments `inserted`; an accepted record whose latest stored value
differs beyond tolerance inserts a row with data version latest + 1
(leaving all prior rows untouched, as the store is only appended to) and
increments `updated`. -/
theorem C1_upsert_record_outcomes (reg : List String) (ind : String) (fa : Nat)
    (st : UpsertState) (r : IndicatorRecord) :
    (∀ e, validateRecord r = some e →
      processRecord reg ind fa st r = { st with errors := st.errors ++ [e] } ∧
      ∀ rest : List IndicatorRecord,
        (r :: rest).foldl (processRecord reg ind fa) st =
          rest.foldl (processRecord reg ind fa) { st with errors := st.errors ++ [e] }) ∧
    (validateRecord r = none → r.countryCode ∉ reg →
      processRecord reg ind fa st r = { st with skipped := st.skipped + 1 }) ∧
    (validateRecord r = none → r.countryCode ∈ reg →
      keyRows st.store (recKey ind r) = [] →
      processRecord reg ind fa st r =
        { st with store := st.store ++ [insRow ind fa r 1],
                  inserted := st.inserted + 1 }) ∧
    (validateRecord r = none → r.countryCode ∈ reg →
      ∀ b, latestRow st.store (recKey ind r) = some b →
        ¬(|b.value - r.value.toRat| < tol) →
        processRecord reg ind fa st r =
          { st with store := st.store ++ [insRow ind fa r (b.data_version + 1)],
                    updated := st.updated + 1 }) := by
  refine ⟨?_, ?_, ?_, ?_⟩
  · intro e he
    refine ⟨processRecord_invalid reg ind fa st r e he, ?_⟩
    intro rest
    rw [List.foldl_cons, processRecord_invalid reg ind fa st r e he]
  · exact processRecord_unknownCountry reg ind fa st r
  · intro hv hc hk
    exact processRecord_insertNew reg ind fa st r hv hc
      ((latestRow_eq_none_iff st.store (recKey ind r)).mpr hk)
  · intro hv hc b hb hd
    exact processRecord_newVersion reg ind fa st r b hv hc hb hd

/-- C1 witness: the four outcomes at concrete inputs: a three-letter country
code is recorded as an error; a country outside the registry is skipped; a
fresh key gets version 1; a changed value gets version 2 on top of the
untouched version-1 row. -/
theorem C1_upsert_record_outcomes_witness :
    (processRecord ["US"] "ind" 0 (initState []) ⟨"USA", ⟨true, 5⟩, "2020-12-31"⟩ =
      { initState [] with errors := ["Invalid country_code: USA"] }) ∧
    (processRecord ["US"] "ind" 0 (initState []) ⟨"FR", ⟨true, 5⟩, "2020-12-31"⟩ =
      { initState [] with skipped := 1 }) ∧
    (processRecord ["US"] "ind" 0 (initState []) ⟨"US", ⟨true, 5⟩, "2020-12-31"⟩ =
      { initState [] with
          store := [insRow "ind" 0 ⟨"US", ⟨true, 5⟩, "2020-12-31"⟩ 1], inserted := 1 }) ∧
    (processRecord ["US"] "ind" 0
        (initState [insRow "ind" 0 ⟨"US", ⟨true, 5⟩, "2020-12-31"⟩ 1])
        ⟨"US", ⟨true, 6⟩, "2020-12-31"⟩ =
      { initState [insRow "ind" 0 ⟨"US", ⟨true, 5⟩, "2020-12-31"⟩ 1] with
          store := [insRow "ind" 0 ⟨"US", ⟨true, 5⟩, "2020-12-31"⟩ 1,
                    insRow "ind" 0 ⟨"US", ⟨true, 6⟩, "2020-12-31"⟩ 2],
          updated := 1 }) := by
  refine ⟨?_, ?_, ?_, ?_⟩
  · exact ((C1_upsert_record_outcomes ["US"] "ind" 0 (initState [])
      ⟨"USA", ⟨true, 5⟩, "2020-12-31"⟩).1 "Invalid country_code: USA" rfl).1
  · exact (C1_upsert_record_outcomes ["US"] "ind" 0 (initState [])
      ⟨"FR", ⟨true, 5⟩, "2020-12-31"⟩).2.1 rfl (by decide)
  · exact (C1_upsert_record_outcomes ["US"] "ind" 0 (initState [])
      ⟨"US", ⟨true, 5⟩, "2020-12-31"⟩).2.2.1 rfl (List.mem_cons_self _ _) rfl
  · exact (C1_upsert_record_outcomes ["US"] "ind" 0
      (initState [insRow "ind" 0 ⟨"US", ⟨true, 5⟩, "2020-12-31"⟩ 1])
      ⟨"US", ⟨true, 6⟩, "2020-12-31"⟩).2.2.2 rfl (List.mem_cons_self _ _)
      (insRow "ind" 0 ⟨"US", ⟨true, 5⟩, "2020-12-31"⟩ 1) rfl
      (show ¬(|(5 : Rat) - 6| < tol) by rw [show tol = 1 / 10000 from rfl]; norm_num)

/-- C3 counterexample: the claim says a candidate differing from the latest
stored value by exactly the tolerance (1e-4) is counted as skipped with no
new row. On the code, with stored value 0 and candidate 1/10000, the strict
comparison `|existing - candidate| < 0.0001` fails, so a new version is
inserted: skipped = 0, updated = 1, and the store gains a version-2 row. -/
theorem C3_counterexample :
    upsertIndicatorValues ["US"] "rate"
        [⟨"US", ⟨true, mkRat 1 10000⟩, "2020-12-31"⟩] 7
        [⟨"US", "rate", "2020-12-31", 0, 0, 1⟩] =
      { store := [⟨"US", "rate", "2020-12-31", 0, 0, 1⟩,
                  ⟨"US", "rate", "2020-12-31", mkRat 1 10000, 7, 2⟩],
        inserted := 0, updated := 1, skipped := 0, errors := [] } := by
  have hcmp : ¬(|(0 : Rat) - mkRat 1 10000| < tol) := by
    rw [show tol = 1 / 10000 from rfl, Rat.mkRat_eq_div, zero_sub, abs_neg,
      abs_of_nonneg (by norm_num)]
    exact lt_irrefl _
  have hstep := processRecord_newVersion ["US"] "rate" 7
    (initState [⟨"US", "rate", "2020-12-31", 0, 0, 1⟩])
    ⟨"US", ⟨true, mkRat 1 10000⟩, "2020-12-31"⟩
    ⟨"US", "rate", "2020-12-31", 0, 0, 1⟩ rfl (List.mem_cons_self _ _) rfl hcmp
  show processRecord ["US"] "rate" 7 (initState [⟨"US", "rate", "2020-12-31", 0, 0, 1⟩])
      ⟨"US", ⟨true, mkRat 1 10000⟩, "2020-12-31"⟩ = _
  rw [hstep]
  rfl

/-- C3 (amended): the dedup comparison is strict. A candidate differing from
the latest stored value by strictly less than the tolerance (1e-4) is
treated as unchanged (skipped, no new row); a candidate differing by the
tolerance or more — including exactly the tolerance — triggers insertion of
a new version. -/
theorem C3_tolerance_boundary (reg : List String) (ind : String) (fa : Nat)
    (st : UpsertState) (r : IndicatorRecord) (b : Row)
    (hv : validateRecord r = none) (hc : r.countryCode ∈ reg)
    (hb : latestRow st.store (recKey ind r) = some b) :
    (|b.value - r.value.toRat| < tol →
      processRecord reg ind fa st r = { st with skipped := st.skipped + 1 }) ∧
    (tol ≤ |b.value - r.value.toRat| →
      processRecord reg ind fa st r =
        { st with store := st.store ++ [insRow ind fa r (b.data_version + 1)],
                  updated := st.updated + 1 }) :=
  ⟨fun hd => processRecord_dedup reg ind fa st r b hv hc hb hd,
   fun hd => processRecord_newVersion reg ind fa st r b hv hc hb (not_lt.mpr hd)⟩

/-- C3 witness: with stored value 0, a candidate of exactly 1/10000 inserts
a version-2 row, and an identical candidate (difference 0) is skipped. -/
theorem C3_tolerance_boundary_witness :
    (processRecord ["US"] "rate" 7 (initState [⟨"US", "rate", "2020-12-31", 0, 0, 1⟩])
        ⟨"US", ⟨true, mkRat 1 10000⟩, "2020-12-31"⟩ =
      { initState [⟨"US", "rate", "2020-12-31", 0, 0, 1⟩] with
          store := [⟨"US", "rate", "2020-12-31", 0, 0, 1⟩,
                    insRow "rate" 7 ⟨"US", ⟨true, mkRat 1 10000⟩, "2020-12-31"⟩ 2],
          updated := 1 }) ∧
    (processRecord ["US"] "rate" 7 (initState [⟨"US", "rate", "2020-12-31", 0, 0, 1⟩])
        ⟨"US", ⟨true, 0⟩, "2020-12-31"⟩ =
      { initState [⟨"US", "rate", "2020-12-31", 0, 0, 1⟩] with skipped := 1 }) := by
  constructor
  · exact (C3_tolerance_boundary ["US"] "rate" 7
      (initState [⟨"US", "rate", "2020-12-31", 0, 0, 1⟩])
      ⟨"US", ⟨true, mkRat 1 10000⟩, "2020-12-31"⟩
      ⟨"US", "rate", "2020-12-31", 0, 0, 1⟩ rfl (List.mem_cons_self _ _) rfl).2
      (by
        show tol ≤ |(0 : Rat) - mkRat 1 10000|
        rw [show tol = 1 / 10000 from rfl, Rat.mkRat_eq_div, zero_sub, abs_neg,
          abs_of_nonneg (by norm_num)]
        norm_num)
  · exact (C3_tolerance_boundary ["US"] "rate" 7
      (initState [⟨"US", "rate", "2020-12-31", 0, 0, 1⟩])
      ⟨"US", ⟨true, 0⟩, "2020-12-31"⟩
      ⟨"US", "rate", "2020-12-31", 0, 0, 1⟩ rfl (List.mem_cons_self _ _) rfl).1
      (by
        show |(0 : Rat) - 0| < tol
        rw [show tol = 1 / 10000 from rfl]
        norm_num)

/-- C10: each input record of a fault-free run lands in exactly one outcome
bucket: inserted + updated + skipped + (length of the error list) equals
the number of records in the batch. -/
theorem C10_count_partition (reg : List String) (ind : String)
    (records : List IndicatorRecord) (fa : Nat) (store : List Row) :
    (upsertIndicatorValues reg ind records fa store).inserted +
      (upsertIndicatorValues reg ind records fa store).updated +
      (upsertIndicatorValues reg ind records fa store).skipped +
      (upsertIndicatorValues reg ind records fa store).errors.length =
    records.length := by
  have h := foldl_count reg ind fa records (initState store)
  simpa [upsertIndicatorValues, initState] using h

/-- C6: atomicity of the upsert batch. If a storage error occurs at any
record index within the batch, the committed store after the call is exactly
the pre-run store (no row from this batch persists, and rows from prior
successful runs are untouched), and the error propagates to the caller. -/
theorem C6_upsert_atomicity (reg : List String) (ind : String)
    (records : List IndicatorRecord) (fa : Nat) (store : List Row) (n : Nat)
    (h : n < records.length) :
    (upsertIndicatorValuesTx reg ind records fa (some n) store).store = store ∧
    (upsertIndicatorValuesTx reg ind records fa (some n) store).result =
      .error "storage error" := by
  unfold upsertIndicatorValuesTx
  rw [runRecordsTx_fault reg ind fa n records 0 (initState store) (Nat.zero_le n) (by omega)]
  exact ⟨rfl, rfl⟩

/-- C6 witness: a fault on the second record of a two-record batch rolls the
store back to the single pre-existing row and surfaces the error. -/
theorem C6_upsert_atomicity_witness :
    (upsertIndicatorValuesTx ["US"] "ind"
        [⟨"US", ⟨true, 5⟩, "2020-12-31"⟩, ⟨"US", ⟨true, 6⟩, "2021-12-31"⟩] 0 (some 1)
        [⟨"US", "ind", "2019-12-31", 3, 0, 1⟩]).store =
      [⟨"US", "ind", "2019-12-31", 3, 0, 1⟩] ∧
    (upsertIndicatorValuesTx ["US"] "ind"
        [⟨"US", ⟨true, 5⟩, "2020-12-31"⟩, ⟨"US", ⟨true, 6⟩, "2021-12-31"⟩] 0 (some 1)
        [⟨"US", "ind", "2019-12-31", 3, 0, 1⟩]).result = .error "storage error" :=
  C6_upsert_atomicity ["US"] "ind"
    [⟨"US", ⟨true, 5⟩, "2020-12-31"⟩, ⟨"US", ⟨true, 6⟩, "2021-12-31"⟩] 0
    [⟨"US", "ind", "2019-12-31", 3, 0, 1⟩] 1 (by decide)

/-- C2 counterexample: with batch size 1, a two-record backfill run has its
records in two different batches. A storage fault while processing the
second batch leaves the committed store empty — the row written for the
first record by the earlier batch does NOT remain committed, contradicting
the claim. The third conjunct shows that the first batch alone does write
that row, so real work of the earlier batch was rolled back. -/
theorem C2_counterexample :
    (bulkUpsertHistoricalDataTx ["US", "FR"] "ind"
        [⟨"US", ⟨true, 5⟩, "2019-12-31"⟩, ⟨"FR", ⟨true, 3⟩, "2019-12-31"⟩]
        1 0 (some 1) []).store = [] ∧
    (bulkUpsertHistoricalDataTx ["US", "FR"] "ind"
        [⟨"US", ⟨true, 5⟩, "2019-12-31"⟩, ⟨"FR", ⟨true, 3⟩, "2019-12-31"⟩]
        1 0 (some 1) []).result = .error "storage error" ∧
    (bulkUpsertHistoricalData ["US", "FR"] "ind"
        [⟨"US", ⟨true, 5⟩, "2019-12-31"⟩] 1 0 []).store =
      [insRow "ind" 0 ⟨"US", ⟨true, 5⟩, "2019-12-31"⟩ 1] :=
  ⟨rfl, rfl, rfl⟩

/-- C2 (amended): in the Bulk Historical Loader, writes are chunked into
fixed-size batches for iteration, but the whole run executes inside a single
transaction committed once at the end: a storage failure while processing
any batch rolls back the rows written by ALL batches of the run (earlier
batches included), the committed store reverts to its pre-run contents, and
the error propagates. -/
theorem C2_bulk_single_transaction (reg : List String) (ind : String)
    (records : List IndicatorRecord) (bs now n : Nat) (store : List Row)
    (h : n < records.length) :
    (bulkUpsertHistoricalDataTx reg ind records bs now (some n) store).store = store ∧
    (bulkUpsertHistoricalDataTx reg ind records bs now (some n) store).result =
      .error "storage error" := by
  unfold bulkUpsertHistoricalDataTx
  rw [runBulkChunksTx_fault reg ind now n (chunksOf bs records) 0 ⟨store, 0, 0⟩
    (Nat.zero_le n) (by rw [chunksOf_flatten]; omega)]
  exact ⟨rfl, rfl⟩

/-- C2 witness: a fault in the second single-record batch reverts the
committed store to its pre-run one-row contents. -/
theorem C2_bulk_single_transaction_witness :
    (bulkUpsertHistoricalDataTx ["US", "FR"] "ind"
        [⟨"US", ⟨true, 5⟩, "2019-12-31"⟩, ⟨"FR", ⟨true, 3⟩, "2019-12-31"⟩]
        1 0 (some 1) [⟨"DE", "ind", "2000-12-31", 2, 0, 1⟩]).store =
      [⟨"DE", "ind", "2000-12-31", 2, 0, 1⟩] ∧
    (bulkUpsertHistoricalDataTx ["US", "FR"] "ind"
        [⟨"US", ⟨true, 5⟩, "2019-12-31"⟩, ⟨"FR", ⟨true, 3⟩, "2019-12-31"⟩]
        1 0 (some 1) [⟨"DE", "ind", "2000-12-31", 2, 0, 1⟩]).result =
      .error "storage error" :=
  C2_bulk_single_transaction ["US", "FR"] "ind"
    [⟨"US", ⟨true, 5⟩, "2019-12-31"⟩, ⟨"FR", ⟨true, 3⟩, "2019-12-31"⟩]
    1 0 1 [⟨"DE", "ind", "2000-12-31", 2, 0, 1⟩] (by decide)

/-- C4: starting from an empty store, after any sequence of upsert runs:
(i) for every key the stored data versions are exactly the dense range 1..N
(in insertion order, with no gaps); (ii) any single run only appends rows —
no stored row is ever mutated or deleted; (iii) for every key the
latest-version row is the chronologically last row written for that key
(the most recently accepted differing value); (iv) the latest row's data
version equals N, the number of rows stored for the key. -/
theorem C4_version_history (runs : List RunSpec) :
    Dense (applyRuns runs []) ∧
    LatestIsLast (applyRuns runs []) ∧
    (∀ (reg : List String) (ind : String) (records : List IndicatorRecord)
        (fa : Nat) (store : List Row),
      ∃ ext, (upsertIndicatorValues reg ind records fa store).store = store ++ ext) ∧
    (∀ k b, latestRow (applyRuns runs []) k = some b →
      b.data_version = (keyRows (applyRuns runs []) k).length) := by
  obtain ⟨hD, hL⟩ := inv_applyRuns runs [] Dense_nil LatestIsLast_nil
  refine ⟨hD, hL, fun reg ind records fa store => upsert_store_extend reg ind records fa store,
    fun k b hb => latest_version_eq_length (applyRuns runs []) k b hD hL hb⟩

/-- C4 witness: after one run inserting a single fresh record, the latest
row for its key has data version 1 = number of stored rows for the key. -/
theorem C4_version_history_witness :
    (insRow "ind" 0 ⟨"US", ⟨true, 5⟩, "2020-12-31"⟩ 1).data_version =
      (keyRows (applyRuns [⟨["US"], "ind", [⟨"US", ⟨true, 5⟩, "2020-12-31"⟩], 0⟩] [])
        ("US", "ind", "2020-12-31")).length :=
  (C4_version_history [⟨["US"], "ind", [⟨"US", ⟨true, 5⟩, "2020-12-31"⟩], 0⟩]).2.2.2
    ("US", "ind", "2020-12-31") (insRow "ind" 0 ⟨"US", ⟨true, 5⟩, "2020-12-31"⟩ 1) rfl

/-- C5 counterexample: the claim fails when one batch contains two valid
candidates for the same key with differing values. With batch
`[{US, 5}, {US, 9}]` (same key), the first run stores versions 1 and 2;
re-running the identical batch is NOT a no-op: the second run performs two
more new-version inserts (updated = 2, not 0) and the key's version count
grows from 2 to 4. -/
theorem C5_counterexample :
    (upsertIndicatorValues ["US"] "r"
        [⟨"US", ⟨true, 5⟩, "2020-12-31"⟩, ⟨"US", ⟨true, 9⟩, "2020-12-31"⟩] 1
        (upsertIndicatorValues ["US"] "r"
          [⟨"US", ⟨true, 5⟩, "2020-12-31"⟩, ⟨"US", ⟨true, 9⟩, "2020-12-31"⟩] 0 []).store).updated
      = 2 ∧
    (keyRows (upsertIndicatorValues ["US"] "r"
        [⟨"US", ⟨true, 5⟩, "2020-12-31"⟩, ⟨"US", ⟨true, 9⟩, "2020-12-31"⟩] 1
        (upsertIndicatorValues ["US"] "r"
          [⟨"US", ⟨true, 5⟩, "2020-12-31"⟩, ⟨"US", ⟨true, 9⟩, "2020-12-31"⟩] 0 []).store).store
      ("US", "r", "2020-12-31")).length = 4 ∧
    (keyRows (upsertIndicatorValues ["US"] "r"
        [⟨"US", ⟨true, 5⟩, "2020-12-31"⟩, ⟨"US", ⟨true, 9⟩, "2020-12-31"⟩] 0 []).store
      ("US", "r", "2020-12-31")).length = 2 := by
  have hcmp59 : ¬(|(5 : Rat) - 9| < tol) := by
    rw [show tol = 1 / 10000 from rfl]
    norm_num
  have hcmp95 : ¬(|(9 : Rat) - 5| < tol) := by
    rw [show tol = 1 / 10000 from rfl]
    norm_num
  have hstep1 : processRecord ["US"] "r" 0 (initState []) ⟨"US", ⟨true, 5⟩, "2020-12-31"⟩ =
      ⟨[insRow "r" 0 ⟨"US", ⟨true, 5⟩, "2020-12-31"⟩ 1], 1, 0, 0, []⟩ := by
    rw [processRecord_insertNew ["US"] "r" 0 (initState []) ⟨"US", ⟨true, 5⟩, "2020-12-31"⟩
      rfl (List.mem_cons_self _ _) rfl]
    rfl
  have hstep2 : processRecord ["US"] "r" 0
      ⟨[insRow "r" 0 ⟨"US", ⟨true, 5⟩, "2020-12-31"⟩ 1], 1, 0, 0, []⟩
      ⟨"US", ⟨true, 9⟩, "2020-12-31"⟩ =
      ⟨[insRow "r" 0 ⟨"US", ⟨true, 5⟩, "2020-12-31"⟩ 1,
        insRow "r" 0 ⟨"US", ⟨true, 9⟩, "2020-12-31"⟩ 2], 1, 1, 0, []⟩ := by
    rw [processRecord_newVersion ["US"] "r" 0
      ⟨[insRow "r" 0 ⟨"US", ⟨true, 5⟩, "2020-12-31"⟩ 1], 1, 0, 0, []⟩
      ⟨"US", ⟨true, 9⟩, "2020-12-31"⟩ (insRow "r" 0 ⟨"US", ⟨true, 5⟩, "2020-12-31"⟩ 1)
      rfl (List.mem_cons_self _ _) rfl hcmp59]
    rfl
  have h1 : upsertIndicatorValues ["US"] "r"
      [⟨"US", ⟨true, 5⟩, "2020-12-31"⟩, ⟨"US", ⟨true, 9⟩, "2020-12-31"⟩] 0 [] =
      ⟨[insRow "r" 0 ⟨"US", ⟨true, 5⟩, "2020-12-31"⟩ 1,
        insRow "r" 0 ⟨"US", ⟨true, 9⟩, "2020-12-31"⟩ 2], 1, 1, 0, []⟩ := by
    show List.foldl (processRecord ["US"] "r" 0) (initState [])
      [⟨"US", ⟨true, 5⟩, "2020-12-31"⟩, ⟨"US", ⟨true, 9⟩, "2020-12-31"⟩] = _
    rw [List.foldl_cons, hstep1, List.foldl_cons, hstep2]
    rfl
  have hstep3 : processRecord ["US"] "r" 1
      (initState [insRow "r" 0 ⟨"US", ⟨true, 5⟩, "2020-12-31"⟩ 1,
        insRow "r" 0 ⟨"US", ⟨true, 9⟩, "2020-12-31"⟩ 2])
      ⟨"US", ⟨true, 5⟩, "2020-12-31"⟩ =
      ⟨[insRow "r" 0 ⟨"US", ⟨true, 5⟩, "2020-12-31"⟩ 1,
        insRow "r" 0 ⟨"US", ⟨true, 9⟩, "2020-12-31"⟩ 2,
        insRow "r" 1 ⟨"US", ⟨true, 5⟩, "2020-12-31"⟩ 3], 0, 1, 0, []⟩ := by
    rw [processRecord_newVersion ["US"] "r" 1
      (initState [insRow "r" 0 ⟨"US", ⟨true, 5⟩, "2020-12-31"⟩ 1,
        insRow "r" 0 ⟨"US", ⟨true, 9⟩, "2020-12-31"⟩ 2])
      ⟨"US", ⟨true, 5⟩, "2020-12-31"⟩ (insRow "r" 0 ⟨"US", ⟨true, 9⟩, "2020-12-31"⟩ 2)
      rfl (List.mem_cons_self _ _) rfl hcmp95]
    rfl
  have hstep4 : processRecord ["US"] "r" 1
      ⟨[insRow "r" 0 ⟨"US", ⟨true, 5⟩, "2020-12-31"⟩ 1,
        insRow "r" 0 ⟨"US", ⟨true, 9⟩, "2020-12-31"⟩ 2,
        insRow "r" 1 ⟨"US", ⟨true, 5⟩, "2020-12-31"⟩ 3], 0, 1, 0, []⟩
      ⟨"US", ⟨true, 9⟩, "2020-12-31"⟩ =
      ⟨[insRow "r" 0 ⟨"US", ⟨true, 5⟩, "2020-12-31"⟩ 1,
        insRow "r" 0 ⟨"US", ⟨true, 9⟩, "2020-12-31"⟩ 2,
        insRow "r" 1 ⟨"US", ⟨true, 5⟩, "2020-12-31"⟩ 3,
        insRow "r" 1 ⟨"US", ⟨true, 9⟩, "2020-12-31"⟩ 4], 0, 2, 0, []⟩ := by
    rw [processRecord_newVersion ["US"] "r" 1
      ⟨[insRow "r" 0 ⟨"US", ⟨true, 5⟩, "2020-12-31"⟩ 1,
        insRow "r" 0 ⟨"US", ⟨true, 9⟩, "2020-12-31"⟩ 2,
        insRow "r" 1 ⟨"US", ⟨true, 5⟩, "2020-12-31"⟩ 3], 0, 1, 0, []⟩
      ⟨"US", ⟨true, 9⟩, "2020-12-31"⟩ (insRow "r" 1 ⟨"US", ⟨true, 5⟩, "2020-12-31"⟩ 3)
      rfl (List.mem_cons_self _ _) rfl hcmp59]
    rfl
  have h2 : upsertIndicatorValues ["US"] "r"
      [⟨"US", ⟨true, 5⟩, "2020-12-31"⟩, ⟨"US", ⟨true, 9⟩, "2020-12-31"⟩] 1
      [insRow "r" 0 ⟨"US", ⟨true, 5⟩, "2020-12-31"⟩ 1,
       insRow "r" 0 ⟨"US", ⟨true, 9⟩, "2020-12-31"⟩ 2] =
      ⟨[insRow "r" 0 ⟨"US", ⟨true, 5⟩, "2020-12-31"⟩ 1,
        insRow "r" 0 ⟨"US", ⟨true, 9⟩, "2020-12-31"⟩ 2,
        insRow "r" 1 ⟨"US", ⟨true, 5⟩, "2020-12-31"⟩ 3,
        insRow "r" 1 ⟨"US", ⟨true, 9⟩, "2020-12-31"⟩ 4], 0, 2, 0, []⟩ := by
    show List.foldl (processRecord ["US"] "r" 1)
      (initState [insRow "r" 0 ⟨"US", ⟨true, 5⟩, "2020-12-31"⟩ 1,
        insRow "r" 0 ⟨"US", ⟨true, 9⟩, "2020-12-31"⟩ 2])
      [⟨"US", ⟨true, 5⟩, "2020-12-31"⟩, ⟨"US", ⟨true, 9⟩, "2020-12-31"⟩] = _
    rw [List.foldl_cons, hstep3, List.foldl_cons, hstep4]
    rfl
  rw [h1]
  rw [show (⟨[insRow "r" 0 ⟨"US", ⟨true, 5⟩, "2020-12-31"⟩ 1,
        insRow "r" 0 ⟨"US", ⟨true, 9⟩, "2020-12-31"⟩ 2], 1, 1, 0, []⟩ : UpsertState).store =
      [insRow "r" 0 ⟨"US", ⟨true, 5⟩, "2020-12-31"⟩ 1,
       insRow "r" 0 ⟨"US", ⟨true, 9⟩, "2020-12-31"⟩ 2] from rfl, h2]
  refine ⟨rfl, rfl, rfl⟩

/-- C5 (amended): idempotence holds for batches in which the accepted
records (structurally valid with a registered country) address pairwise
distinct (country, indicator, effective date) keys: re-running such a batch
with no intervening store change yields inserted = 0 and updated = 0, and
leaves the store — hence the number of stored versions of every key —
unchanged. -/
theorem C5_idempotence (reg : List String) (ind : String)
    (records : List IndicatorRecord) (fa fa' : Nat) (store : List Row)
    (hpw : records.Pairwise
      (fun a b => Accepted reg a → Accepted reg b → recKey ind a ≠ recKey ind b)) :
    (upsertIndicatorValues reg ind records fa'
        (upsertIndicatorValues reg ind records fa store).store).store =
      (upsertIndicatorValues reg ind records fa store).store ∧
    (upsertIndicatorValues reg ind records fa'
        (upsertIndicatorValues reg ind records fa store).store).inserted = 0 ∧
    (upsertIndicatorValues reg ind records fa'
        (upsertIndicatorValues reg ind records fa store).store).updated = 0 := by
  have hgood : ∀ r ∈ records, Accepted reg r →
      GoodFor ind (upsertIndicatorValues reg ind records fa store).store r :=
    fun r hr hacc => foldl_goodFor reg ind fa records (initState store) hpw r hr hacc
  obtain ⟨h1, h2, h3⟩ := foldl_noop_of_goodFor reg ind fa' records
    (initState (upsertIndicatorValues reg ind records fa store).store) hgood
  exact ⟨h1, h2, h3⟩

/-- C5 witness: a singleton batch re-run from the empty store: the second
run changes nothing and reports inserted = 0, updated = 0. -/
theorem C5_idempotence_witness :
    (upsertIndicatorValues ["US"] "ind" [⟨"US", ⟨true, 5⟩, "2020-12-31"⟩] 1
        (upsertIndicatorValues ["US"] "ind" [⟨"US", ⟨true, 5⟩, "2020-12-31"⟩] 0 []).store).store =
      (upsertIndicatorValues ["US"] "ind" [⟨"US", ⟨true, 5⟩, "2020-12-31"⟩] 0 []).store ∧
    (upsertIndicatorValues ["US"] "ind" [⟨"US", ⟨true, 5⟩, "2020-12-31"⟩] 1
        (upsertIndicatorValues ["US"] "ind" [⟨"US", ⟨true, 5⟩, "2020-12-31"⟩] 0 []).store).inserted
      = 0 ∧
    (upsertIndicatorValues ["US"] "ind" [⟨"US", ⟨true, 5⟩, "2020-12-31"⟩] 1
        (upsertIndicatorValues ["US"] "ind" [⟨"US", ⟨true, 5⟩, "2020-12-31"⟩] 0 []).store).updated
      = 0 :=
  C5_idempotence ["US"] "ind" [⟨"US", ⟨true, 5⟩, "2020-12-31"⟩] 0 1 [] (by simp)

/-- C7: backfill non-destructiveness. For any key that already has at least
one stored row, a fault-free `bulkUpsertHistoricalData` run leaves that
key's rows exactly as they were (nothing altered, no version added); and
any single candidate whose key has a stored row is counted as skipped,
whether or not its value matches the stored value. -/
theorem C7_backfill_nondestructive (reg : List String) (ind : String)
    (records : List IndicatorRecord) (bs now : Nat) (store : List Row)
    (k : String × String × String) (hne : keyRows store k ≠ []) :
    keyRows (bulkUpsertHistoricalData reg ind records bs now store).store k =
      keyRows store k ∧
    (∀ (st : BulkState) (r : IndicatorRecord) (b : Row),
      isCountryCodeShape r.countryCode = true → r.countryCode ∈ reg →
      latestRow st.store (recKey ind r) = some b →
      processBulkRecord reg ind now st r = { st with skipped := st.skipped + 1 }) := by
  constructor
  · rw [bulk_eq_flat]
    exact keyRows_bulk_foldl_frame reg ind now k records ⟨store, 0, 0⟩ hne
  · intro st r b hs hc hb
    exact processBulkRecord_existing reg ind now st r b hs hc hb

/-- C7 witness: a backfill candidate for an already-populated key (with a
different value) leaves the key's single row untouched and is counted as
skipped. -/
theorem C7_backfill_nondestructive_witness :
    keyRows (bulkUpsertHistoricalData ["US"] "ind" [⟨"US", ⟨true, 7⟩, "2020-12-31"⟩]
        500 0 [⟨"US", "ind", "2020-12-31", 5, 0, 1⟩]).store ("US", "ind", "2020-12-31") =
      keyRows [⟨"US", "ind", "2020-12-31", 5, 0, 1⟩] ("US", "ind", "2020-12-31") ∧
    processBulkRecord ["US"] "ind" 0 ⟨[⟨"US", "ind", "2020-12-31", 5, 0, 1⟩], 0, 0⟩
        ⟨"US", ⟨true, 7⟩, "2020-12-31"⟩ =
      { store := [⟨"US", "ind", "2020-12-31", 5, 0, 1⟩], inserted := 0, skipped := 1 } := by
  have h := C7_backfill_nondestructive ["US"] "ind" [⟨"US", ⟨true, 7⟩, "2020-12-31"⟩]
    500 0 [⟨"US", "ind", "2020-12-31", 5, 0, 1⟩] ("US", "ind", "2020-12-31")
    (by simp [keyRows, rowKey])
  exact ⟨h.1, h.2 ⟨[⟨"US", "ind", "2020-12-31", 5, 0, 1⟩], 0, 0⟩
    ⟨"US", ⟨true, 7⟩, "2020-12-31"⟩ ⟨"US", "ind", "2020-12-31", 5, 0, 1⟩ rfl
    (List.mem_cons_self _ _) rfl⟩

/-- C8: within one upsert batch, records are processed in input order, and
for any structurally valid candidate `r` with a registered country that is
the last valid candidate for its key in the batch, the committed
latest-version value for that key after the batch agrees with `r`'s value
up to the dedup tolerance (the last candidate in input order wins). -/
theorem C8_last_candidate_wins (reg : List String) (ind : String) (fa : Nat)
    (store : List Row) (pre post : List IndicatorRecord) (r : IndicatorRecord)
    (hv : validateRecord r = none) (hc : r.countryCode ∈ reg)
    (hlast : ∀ x ∈ post, validateRecord x = none → recKey ind x ≠ recKey ind r) :
    ∃ row, latestRow (upsertIndicatorValues reg ind (pre ++ r :: post) fa store).store
        (recKey ind r) = some row ∧ |row.value - r.value.toRat| < tol := by
  unfold upsertIndicatorValues
  rw [List.foldl_append, List.foldl_cons]
  obtain ⟨b, hb, hd⟩ := processRecord_goodFor reg ind fa
    (pre.foldl (processRecord reg ind fa) (initState store)) r hv hc
  refine ⟨b, ?_, hd⟩
  rw [foldl_latestRow_frame reg ind fa (recKey ind r) post _ ?_, hb]
  intro y hy hay
  exact hlast y hy hay.1

/-- C8 witness: in the batch `[{US, 5}, {US, 9}]` for one key, the later
candidate (value 9) determines the committed latest-version value. -/
theorem C8_last_candidate_wins_witness :
    ∃ row, latestRow (upsertIndicatorValues ["US"] "ind"
        [⟨"US", ⟨true, 5⟩, "2020-12-31"⟩, ⟨"US", ⟨true, 9⟩, "2020-12-31"⟩] 0 []).store
        (recKey "ind" ⟨"US", ⟨true, 9⟩, "2020-12-31"⟩) = some row ∧
      |row.value - (⟨"US", ⟨true, 9⟩, "2020-12-31"⟩ : IndicatorRecord).value.toRat| < tol :=
  C8_last_candidate_wins ["US"] "ind" 0 [] [⟨"US", ⟨true, 5⟩, "2020-12-31"⟩] []
    ⟨"US", ⟨true, 9⟩, "2020-12-31"⟩ rfl (List.mem_cons_self _ _) (by simp)

lemma runJob_fetch_error (reg : List String) (jobName ind : String) (e : String)
    (startedAt : Nat) (failIdx : Option Nat) (store : List Row)
    (ledger : List LedgerEntry) :
    runJob reg jobName ind (.error e) startedAt failIdx store ledger =
      (store, ledger ++ [⟨jobName, "failure", 0, 0, some e⟩]) := rfl

lemma runJob_upsert_ok (reg : List String) (jobName ind : String)
    (records : List IndicatorRecord) (startedAt : Nat) (failIdx : Option Nat)
    (store : List Row) (ledger : List LedgerEntry) (result : IngestionResult)
    (hres : (upsertIndicatorValuesTx reg ind records startedAt failIdx store).result =
      .ok result) :
    runJob reg jobName ind (.ok records) startedAt failIdx store ledger =
      ((upsertIndicatorValuesTx reg ind records startedAt failIdx store).store,
        ledger ++ [⟨jobName,
          if result.errors.length > 0 then "partial" else "success",
          result.inserted, result.updated,
          if result.errors.length > 0 then
            some (String.intercalate "; " (result.errors.take 5))
          else none⟩]) := by
  simp only [runJob]
  rw [hres]
  rfl

lemma runJob_upsert_error (reg : List String) (jobName ind : String)
    (records : List IndicatorRecord) (startedAt : Nat) (failIdx : Option Nat)
    (store : List Row) (ledger : List LedgerEntry) (e : String)
    (hres : (upsertIndicatorValuesTx reg ind records startedAt failIdx store).result =
      .error e) :
    runJob reg jobName ind (.ok records) startedAt failIdx store ledger =
      ((upsertIndicatorValuesTx reg ind records startedAt failIdx store).store,
        ledger ++ [⟨jobName, "failure", 0, 0, some e⟩]) := by
  simp only [runJob]
  rw [hres]
  rfl

/-- C9: every job invocation appends exactly one ledger entry, and that
entry's status is derived from the outcome: "failure" with zero counts and
the abort reason when the fetch threw; "success" with the run's counts when
the upsert completed with an empty error list; "partial" with the counts
and a summary of the first five errors when it completed with a non-empty
error list; "failure" with zero counts and the abort reason when the upsert
threw. -/
theorem C9_ledger_entry_per_invocation (reg : List String) (jobName ind : String)
    (fetched : Except String (List IndicatorRecord)) (startedAt : Nat)
    (failIdx : Option Nat) (store : List Row) (ledger : List LedgerEntry) :
    (∃ entry, (runJob reg jobName ind fetched startedAt failIdx store ledger).2 =
      ledger ++ [entry]) ∧
    (∀ e, fetched = .error e →
      (runJob reg jobName ind fetched startedAt failIdx store ledger).2 =
        ledger ++ [⟨jobName, "failure", 0, 0, some e⟩]) ∧
    (∀ records result, fetched = .ok records →
      (upsertIndicatorValuesTx reg ind records startedAt failIdx store).result =
        .ok result →
      (result.errors = [] →
        (runJob reg jobName ind fetched startedAt failIdx store ledger).2 =
          ledger ++ [⟨jobName, "success", result.inserted, result.updated, none⟩]) ∧
      (result.errors ≠ [] →
        (runJob reg jobName ind fetched startedAt failIdx store ledger).2 =
          ledger ++ [⟨jobName, "partial", result.inserted, result.updated,
            some (String.intercalate "; " (result.errors.take 5))⟩])) ∧
    (∀ records e, fetched = .ok records →
      (upsertIndicatorValuesTx reg ind records startedAt failIdx store).result =
        .error e →
      (runJob reg jobName ind fetched startedAt failIdx store ledger).2 =
        ledger ++ [⟨jobName, "failure", 0, 0, some e⟩]) := by
  refine ⟨?_, ?_, ?_, ?_⟩
  · cases fetched with
    | error e => exact ⟨_, by rw [runJob_fetch_error]⟩
    | ok records =>
      cases hres : (upsertIndicatorValuesTx reg ind records startedAt failIdx store).result with
      | ok result => exact ⟨_, by rw [runJob_upsert_ok reg jobName ind records startedAt
          failIdx store ledger result hres]⟩
      | error e => exact ⟨_, by rw [runJob_upsert_error reg jobName ind records startedAt
          failIdx store ledger e hres]⟩
  · intro e he
    subst he
    rw [runJob_fetch_error]
  · intro records result hf hres
    subst hf
    constructor
    · intro herr
      rw [runJob_upsert_ok reg jobName ind records startedAt failIdx store ledger result hres]
      simp [herr]
    · intro herr
      rw [runJob_upsert_ok reg jobName ind records startedAt failIdx store ledger result hres]
      have : result.errors.length > 0 := List.length_pos.mpr herr
      simp [this]
  · intro records e hf hres
    subst hf
    rw [runJob_upsert_error reg jobName ind records startedAt failIdx store ledger e hres]

/-- C9 witness: a fetch failure, a clean run (empty batch), and an
upsert-aborted run each append exactly the prescribed single entry. -/
theorem C9_ledger_entry_per_invocation_witness :
    (runJob ["US"] "exchange" "ind" (.error "boom") 0 none [] []).2 =
      [⟨"exchange", "failure", 0, 0, some "boom"⟩] ∧
    (runJob ["US"] "exchange" "ind" (.ok []) 0 none [] []).2 =
      [⟨"exchange", "success", 0, 0, none⟩] ∧
    (runJob ["US"] "exchange" "ind"
        (.ok [⟨"US", ⟨true, 5⟩, "2020-12-31"⟩]) 0 (some 0) [] []).2 =
      [⟨"exchange", "failure", 0, 0, some "storage error"⟩] := by
  refine ⟨?_, ?_, ?_⟩
  · exact (C9_ledger_entry_per_invocation ["US"] "exchange" "ind" (.error "boom")
      0 none [] []).2.1 "boom" rfl
  · exact ((C9_ledger_entry_per_invocation ["US"] "exchange" "ind" (.ok [])
      0 none [] []).2.2.1 [] ⟨0, 0, 0, []⟩ rfl rfl).1 rfl
  · exact (C9_ledger_entry_per_invocation ["US"] "exchange" "ind"
      (.ok [⟨"US", ⟨true, 5⟩, "2020-12-31"⟩]) 0 (some 0) [] []).2.2.2
      [⟨"US", ⟨true, 5⟩, "2020-12-31"⟩] "storage error" rfl rfl

end GlobeIngestion
